import Mathlib

/-!
Verification of the `update` combinator (an element-mutating pass-through
stage of a fork-join data-parallel iteration pipeline, `src/iter/update.rs`).

The shallow embedding models the base (upstream) producer as a list of items
together with its size metadata, the downstream folder/consumer as explicit
state machines, and Rust's in-place mutation closure `Fn(&mut T)` as a pure
function `T → T` (for the failure analysis, `T → Except E T`).  Each wrapper
definition mirrors the corresponding source item line by line.
-/

namespace RayonUpdate

/-- The sequential fallback iterator `UpdateSeq { base, update_op }`
(`src/iter/update.rs` lines 260-263).  The inner iterator is modelled by the
list of items it has yet to yield; a forward pull takes the head, a backward
pull takes the last element. -/
structure UpdateSeq (T : Type) where
  base : List T
  update_op : T → T

/-- `Iterator::next` for `UpdateSeq` (lines 272-279): pull one item from the
inner iterator; if present, mutate it and yield it; otherwise yield nothing. -/
def UpdateSeq.next {T : Type} : UpdateSeq T → Option (T × UpdateSeq T)
  | ⟨[], _⟩ => none
  | ⟨v :: rest, f⟩ => some (f v, ⟨rest, f⟩)

/-- `DoubleEndedIterator::next_back` for `UpdateSeq` (lines 321-328): pull one
item from the back of the inner iterator; if present, mutate and yield it. -/
def UpdateSeq.next_back {T : Type} (s : UpdateSeq T) : Option (T × UpdateSeq T) :=
  match s.base.getLast? with
  | none => none
  | some v => some (s.update_op v, ⟨s.base.dropLast, s.update_op⟩)

/-- `Iterator::size_hint` of the inner list iterator: exact on both bounds. -/
def listSizeHint {T : Type} (l : List T) : Nat × Option Nat :=
  (l.length, some l.length)

/-- `UpdateSeq::size_hint` (lines 281-283): forwarded unchanged from the inner
iterator. -/
def UpdateSeq.size_hint {T : Type} (s : UpdateSeq T) : Nat × Option Nat :=
  listSizeHint s.base

/-- `UpdateSeq::fold` (lines 285-294): fold the inner iterator, mutating each
item just before handing it to the caller's accumulator function. -/
def UpdateSeq.fold {T Acc : Type} (s : UpdateSeq T) (init : Acc)
    (g : Acc → T → Acc) : Acc :=
  s.base.foldl (fun acc v => g acc (s.update_op v)) init

/-- `UpdateSeq::collect` (lines 297-307): map the mutation over the inner
iterator and collect (collecting into a list is the identity here). -/
def UpdateSeq.collect {T : Type} (s : UpdateSeq T) : List T :=
  s.base.map s.update_op

theorem UpdateSeq.next_some_length {T : Type} {s s' : UpdateSeq T} {v : T}
    (h : s.next = some (v, s')) : s'.base.length < s.base.length := by
  obtain ⟨l, f⟩ := s
  cases l with
  | nil => simp [UpdateSeq.next] at h
  | cons x xs =>
    simp [UpdateSeq.next] at h
    obtain ⟨-, h⟩ := h
    subst h
    simp

theorem UpdateSeq.next_back_some_length {T : Type} {s s' : UpdateSeq T} {v : T}
    (h : s.next_back = some (v, s')) : s'.base.length < s.base.length := by
  obtain ⟨l, f⟩ := s
  cases hl : l.getLast? with
  | none => simp [UpdateSeq.next_back, hl] at h
  | some w =>
    simp [UpdateSeq.next_back, hl] at h
    obtain ⟨-, h⟩ := h
    subst h
    have hne : l ≠ [] := by
      intro hnil
      subst hnil
      simp at hl
    have hpos : 0 < l.length := List.length_pos.mpr hne
    simpa [List.length_dropLast] using Nat.sub_lt hpos Nat.one_pos

/-- Exhaustive forward traversal: repeated `next` calls until exhaustion,
collecting the yielded (mutated) items in order. -/
def UpdateSeq.toList {T : Type} (s : UpdateSeq T) : List T :=
  match h : s.next with
  | none => []
  | some (v, s') => v :: s'.toList
termination_by s.base.length
decreasing_by exact UpdateSeq.next_some_length h

/-- Exhaustive backward traversal: repeated `next_back` calls until
exhaustion, collecting the yielded (mutated) items in pull order. -/
def UpdateSeq.toListBack {T : Type} (s : UpdateSeq T) : List T :=
  match h : s.next_back with
  | none => []
  | some (v, s') => v :: s'.toListBack
termination_by s.base.length
decreasing_by exact UpdateSeq.next_back_some_length h

theorem UpdateSeq.toList_eq_map {T : Type} (l : List T) (f : T → T) :
    UpdateSeq.toList ⟨l, f⟩ = l.map f := by
  induction l with
  | nil =>
    rw [UpdateSeq.toList]
    simp [UpdateSeq.next]
  | cons x xs ih =>
    rw [UpdateSeq.toList]
    simpa [UpdateSeq.next] using ih

/-!  Downstream folder and consumer model.

The inner (downstream) `Folder` and `Consumer` traits live in the engine's
plumbing, outside this component.  They are modelled as explicit state
machines: a state together with the trait methods as functions of the state.
The wrapper structures below then mirror `UpdateFolder` and `UpdateConsumer`
from the source exactly. -/

/-- Modelled from the spec: an arbitrary downstream folder ("an incremental
accumulator that consumes items one at a time and produces a final result on
completion", with a fullness/short-circuit signal).  `state` is the folder's
current accumulation state; `stepFn`, `fullFn`, `completeFn` are its
`consume`, `full` and `complete` methods. -/
structure InnerFolder (T σ R : Type) where
  state : σ
  stepFn : σ → T → σ
  fullFn : σ → Bool
  completeFn : σ → R

def InnerFolder.consume {T σ R : Type} (c : InnerFolder T σ R) (x : T) :
    InnerFolder T σ R :=
  { c with state := c.stepFn c.state x }

def InnerFolder.full {T σ R : Type} (c : InnerFolder T σ R) : Bool :=
  c.fullFn c.state

def InnerFolder.complete {T σ R : Type} (c : InnerFolder T σ R) : R :=
  c.completeFn c.state

/-- `UpdateFolder { base, update_op }` (`src/iter/update.rs` lines 227-230). -/
structure UpdateFolder (T σ R : Type) where
  base : InnerFolder T σ R
  update_op : T → T

/-- `UpdateFolder::consume` (lines 239-246): mutate the item in place, then
forward the mutated item to the inner folder. -/
def UpdateFolder.consume {T σ R : Type} (u : UpdateFolder T σ R) (item : T) :
    UpdateFolder T σ R :=
  let item := u.update_op item
  { base := u.base.consume item, update_op := u.update_op }

/-- `UpdateFolder::complete` (lines 248-250): forwarded to the inner folder. -/
def UpdateFolder.complete {T σ R : Type} (u : UpdateFolder T σ R) : R :=
  u.base.complete

/-- `UpdateFolder::full` (lines 252-254): forwards the inner folder's
short-circuit signal unchanged. -/
def UpdateFolder.full {T σ R : Type} (u : UpdateFolder T σ R) : Bool :=
  u.base.full

/-- Modelled from the spec: the engine's push loop that feeds a chunk's items
to a folder one at a time, checking the folder's fullness signal before each
delivery and stopping as soon as the folder reports full ("stop issuing
further mutate/forward calls promptly").  This is the loop behind the base
producer's `fold_with`, which is engine plumbing outside this component. -/
def UpdateFolder.driveAll {T σ R : Type} :
    UpdateFolder T σ R → List T → UpdateFolder T σ R
  | u, [] => u
  | u, x :: xs => if u.full then u else UpdateFolder.driveAll (u.consume x) xs

/-- Modelled from the spec: the same engine push loop, feeding an inner
(unwrapped) folder directly. -/
def InnerFolder.driveAll {T σ R : Type} :
    InnerFolder T σ R → List T → InnerFolder T σ R
  | c, [] => c
  | c, x :: xs => if c.full then c else InnerFolder.driveAll (c.consume x) xs

/-- Modelled from the spec: an arbitrary downstream (unindexed) consumer.
`state` is the consumer's data; the remaining fields are its trait methods as
functions of that state: `split_at` (two halves plus the reducer that later
combines the halves' results), `split_off_left`, `to_reducer`, the folder
entered by `into_folder` (`stepFn`/`fullFn`/`completeFn` over the same state),
and the fullness signal.  Reducers are modelled as binary combination
functions on results. -/
structure InnerConsumer (T σ R : Type) where
  state : σ
  splitAtFn : σ → Nat → σ × σ × (R → R → R)
  splitLeftFn : σ → σ
  reducerFn : σ → (R → R → R)
  stepFn : σ → T → σ
  fullFn : σ → Bool
  completeFn : σ → R

def InnerConsumer.split_at {T σ R : Type} (c : InnerConsumer T σ R) (k : Nat) :
    InnerConsumer T σ R × InnerConsumer T σ R × (R → R → R) :=
  ({ c with state := (c.splitAtFn c.state k).1 },
   { c with state := (c.splitAtFn c.state k).2.1 },
   (c.splitAtFn c.state k).2.2)

def InnerConsumer.split_off_left {T σ R : Type} (c : InnerConsumer T σ R) :
    InnerConsumer T σ R :=
  { c with state := c.splitLeftFn c.state }

def InnerConsumer.to_reducer {T σ R : Type} (c : InnerConsumer T σ R) :
    R → R → R :=
  c.reducerFn c.state

def InnerConsumer.into_folder {T σ R : Type} (c : InnerConsumer T σ R) :
    InnerFolder T σ R :=
  ⟨c.state, c.stepFn, c.fullFn, c.completeFn⟩

def InnerConsumer.full {T σ R : Type} (c : InnerConsumer T σ R) : Bool :=
  c.fullFn c.state

/-- `UpdateConsumer { base, update_op }` (`src/iter/update.rs` lines 169-172). -/
structure UpdateConsumer (T σ R : Type) where
  base : InnerConsumer T σ R
  update_op : T → T

/-- `UpdateConsumer::new` (lines 174-181). -/
def UpdateConsumer.new {T σ R : Type} (base : InnerConsumer T σ R)
    (update_op : T → T) : UpdateConsumer T σ R :=
  ⟨base, update_op⟩

/-- `UpdateConsumer::split_at` (lines 192-199): delegate to the inner
consumer's split; re-wrap both halves with the same mutation function and
pass the inner reducer through. -/
def UpdateConsumer.split_at {T σ R : Type} (u : UpdateConsumer T σ R)
    (k : Nat) : UpdateConsumer T σ R × UpdateConsumer T σ R × (R → R → R) :=
  let (left, right, reducer) := u.base.split_at k
  (UpdateConsumer.new left u.update_op, UpdateConsumer.new right u.update_op,
   reducer)

/-- `UpdateConsumer::into_folder` (lines 201-206). -/
def UpdateConsumer.into_folder {T σ R : Type} (u : UpdateConsumer T σ R) :
    UpdateFolder T σ R :=
  { base := u.base.into_folder, update_op := u.update_op }

/-- `UpdateConsumer::full` (lines 208-210): forwards the inner consumer's
short-circuit signal unchanged. -/
def UpdateConsumer.full {T σ R : Type} (u : UpdateConsumer T σ R) : Bool :=
  u.base.full

/-- `UnindexedConsumer::split_off_left` for `UpdateConsumer` (lines 218-220). -/
def UpdateConsumer.split_off_left {T σ R : Type} (u : UpdateConsumer T σ R) :
    UpdateConsumer T σ R :=
  UpdateConsumer.new u.base.split_off_left u.update_op

/-- `UnindexedConsumer::to_reducer` for `UpdateConsumer` (lines 222-224). -/
def UpdateConsumer.to_reducer {T σ R : Type} (u : UpdateConsumer T σ R) :
    R → R → R :=
  u.base.to_reducer

/-!  Upstream producer model and the `UpdateProducer` wrapper. -/

/-- Modelled from the spec: the upstream splittable data source ("a
contiguous, independently processable fragment of the input sequence,
recursively divisible"), as the list of items of its sub-range together with
its preferred chunk-size bounds.  Splitting at an index divides the items
into the first `index` and the rest; conversion to sequential form iterates
the items in order. -/
structure ListProducer (T : Type) where
  items : List T
  min_len : Nat
  max_len : Nat

def ListProducer.split_at {T : Type} (p : ListProducer T) (index : Nat) :
    ListProducer T × ListProducer T :=
  (⟨p.items.take index, p.min_len, p.max_len⟩,
   ⟨p.items.drop index, p.min_len, p.max_len⟩)

/-- `UpdateProducer { base, update_op }` (`src/iter/update.rs` lines 113-116). -/
structure UpdateProducer (T : Type) where
  base : ListProducer T
  update_op : T → T

/-- `UpdateProducer::into_iter` (lines 126-131): wrap the base producer's
sequential iterator in `UpdateSeq`. -/
def UpdateProducer.into_iter {T : Type} (p : UpdateProducer T) : UpdateSeq T :=
  ⟨p.base.items, p.update_op⟩

/-- `UpdateProducer::min_len` (lines 133-135): forwarded from the base. -/
def UpdateProducer.min_len {T : Type} (p : UpdateProducer T) : Nat :=
  p.base.min_len

/-- `UpdateProducer::max_len` (lines 136-138): forwarded from the base. -/
def UpdateProducer.max_len {T : Type} (p : UpdateProducer T) : Nat :=
  p.base.max_len

/-- `UpdateProducer::split_at` (lines 140-152): delegate to the base
producer's split and re-wrap both halves with the same mutation function. -/
def UpdateProducer.split_at {T : Type} (p : UpdateProducer T) (index : Nat) :
    UpdateProducer T × UpdateProducer T :=
  let (left, right) := p.base.split_at index
  (⟨left, p.update_op⟩, ⟨right, p.update_op⟩)

/-- `UpdateProducer::fold_with` (lines 154-163): wrap the folder in
`UpdateFolder`, let the base producer push all its items into the wrapped
folder (the engine loop `UpdateFolder.driveAll`), then unwrap (`.base`). -/
def UpdateProducer.fold_with {T σ R : Type} (p : UpdateProducer T)
    (folder : InnerFolder T σ R) : InnerFolder T σ R :=
  let folder1 : UpdateFolder T σ R := ⟨folder, p.update_op⟩
  (UpdateFolder.driveAll folder1 p.base.items).base

/-!  The lazy `Update` adapter. -/

/-- Modelled from the spec: an upstream pipeline stage, as the items it
produces plus the optional size estimate and exact length it reports. -/
structure BaseStage (T : Type) where
  items : List T
  opt_len : Option Nat
  len : Nat

/-- `Update { base, update_op }` (`src/iter/update.rs` lines 15-18). -/
structure Update (T : Type) where
  base : BaseStage T
  update_op : T → T

/-- `Update::opt_len` (lines 54-56): forwards the base stage's optional size
estimate unchanged. -/
def Update.opt_len {T : Type} (u : Update T) : Option Nat :=
  u.base.opt_len

/-- `IndexedParallelIterator::len` for `Update` (lines 72-74): forwards the
base stage's exact length unchanged. -/
def Update.len {T : Type} (u : Update T) : Nat :=
  u.base.len

/-- Modelled from the spec: the base stage's unindexed drive pushes every item
of the stage into the given consumer's folder (via the engine loop) and
completes it. -/
def BaseStage.drive_unindexed {T σ R : Type} (b : BaseStage T)
    (consumer : UpdateConsumer T σ R) : R :=
  (UpdateFolder.driveAll consumer.into_folder b.items).complete

/-- `Update::drive_unindexed` (lines 46-52): wrap the downstream consumer in
`UpdateConsumer` and hand the wrapped consumer to the base stage's own
drive. -/
def Update.drive_unindexed {T σ R : Type} (u : Update T)
    (consumer : InnerConsumer T σ R) : R :=
  let consumer1 := UpdateConsumer.new consumer u.update_op
  u.base.drive_unindexed consumer1

/-!  The engine's choice of execution path. -/

/-- Modelled from the spec: one traversal strategy the scheduling engine may
choose for a split unit — convert to sequential pull-iteration, consume the
whole chunk by push-folding, or split at an index and handle the two halves
recursively ("any split depth and any interleaving of parallel and
sequential consumption chosen by the engine"). -/
inductive EnginePlan : Type where
  | seqPull : EnginePlan
  | pushFold : EnginePlan
  | split : Nat → EnginePlan → EnginePlan → EnginePlan

/-- A downstream folder that collects every item it receives into a list, in
arrival order, and never declares fullness. -/
def collectFolder (T : Type) : InnerFolder T (List T) (List T) :=
  ⟨[], fun acc x => acc ++ [x], fun _ => false, id⟩

/-- Run a producer under an engine plan, collecting the delivered (mutated)
items of all fragments in split order. -/
def UpdateProducer.runPlan {T : Type} :
    UpdateProducer T → EnginePlan → List T
  | p, .seqPull => p.into_iter.toList
  | p, .pushFold => (p.fold_with (collectFolder T)).state
  | p, .split k l r =>
    let (a, b) := p.split_at k
    a.runPlan l ++ b.runPlan r

/-- An interleaved traversal of the sequential fallback iterator: for each
direction in `ds` (`true` = pull from the front via `next`, `false` = pull
from the back via `next_back`), perform one pull; return the items yielded
forward (in yield order), the items yielded backward (in yield order), and
the final iterator state. -/
def UpdateSeq.runMixed {T : Type} :
    UpdateSeq T → List Bool → List T × List T × UpdateSeq T
  | s, [] => ([], [], s)
  | s, d :: ds =>
    if d then
      match s.next with
      | none => s.runMixed ds
      | some (v, s') =>
        (v :: (s'.runMixed ds).1, (s'.runMixed ds).2.1, (s'.runMixed ds).2.2)
    else
      match s.next_back with
      | none => s.runMixed ds
      | some (v, s') =>
        ((s'.runMixed ds).1, v :: (s'.runMixed ds).2.1, (s'.runMixed ds).2.2)

/-!  Failure model: the mutation function may abort (a panic in the source),
modelled by an `Except`-valued mutation.  The wrapper code is the same
`UpdateFolder::consume` with the failure threaded through. -/

/-- `UpdateFolder` with a fallible mutation function (failure = panic). -/
structure UpdateFolderE (T σ R E : Type) where
  base : InnerFolder T σ R
  update_op : T → Except E T

/-- `UpdateFolder::consume` (lines 239-246) under the failure model: the
mutation is attempted first; a failure aborts the step and propagates
unchanged, otherwise the mutated item is forwarded to the inner folder. -/
def UpdateFolderE.consume {T σ R E : Type} (u : UpdateFolderE T σ R E)
    (item : T) : Except E (UpdateFolderE T σ R E) :=
  match u.update_op item with
  | .error e => .error e
  | .ok item => .ok { base := u.base.consume item, update_op := u.update_op }

/-- Modelled from the spec: the engine push loop under the failure model.  A
failure stops the traversal at once; the error case carries the failure value
unchanged together with the folder as of the failure, whose inner state keeps
every item forwarded before the failure (no transactional rollback). -/
def UpdateFolderE.driveAll {T σ R E : Type} :
    UpdateFolderE T σ R E → List T →
      Except (E × UpdateFolderE T σ R E) (UpdateFolderE T σ R E)
  | u, [] => .ok u
  | u, x :: xs =>
    match u.consume x with
    | .error e => .error (e, u)
    | .ok u' => UpdateFolderE.driveAll u' xs

/-- A downstream folder over `Nat` items that collects into a list and
declares fullness as soon as it holds at least one item. -/
def cappedOne : InnerFolder Nat (List Nat) (List Nat) :=
  ⟨[], fun acc x => acc ++ [x], fun acc => decide (1 ≤ acc.length), id⟩

/-!  Helper lemmas. -/

theorem UpdateFolder.driveAll_base {T σ R : Type} (l : List T) (f : T → T)
    (G : InnerFolder T σ R) :
    (UpdateFolder.driveAll ⟨G, f⟩ l).base = G.driveAll (l.map f) := by
  induction l generalizing G with
  | nil => rfl
  | cons x xs ih =>
    by_cases h : G.full
    · simp [UpdateFolder.driveAll, InnerFolder.driveAll, UpdateFolder.full, h]
    · simp only [UpdateFolder.driveAll, InnerFolder.driveAll, UpdateFolder.full,
        List.map_cons, h, if_false, Bool.false_eq_true]
      exact ih (G.consume (f x))

theorem collect_driveAll {T : Type} (f : T → T) (l acc : List T) :
    UpdateFolder.driveAll ⟨⟨acc, fun a x => a ++ [x], fun _ => false, id⟩, f⟩ l
      = ⟨⟨acc ++ l.map f, fun a x => a ++ [x], fun _ => false, id⟩, f⟩ := by
  induction l generalizing acc with
  | nil => simp [UpdateFolder.driveAll]
  | cons x xs ih =>
    simp only [UpdateFolder.driveAll, UpdateFolder.full, InnerFolder.full,
      UpdateFolder.consume, InnerFolder.consume, List.map_cons,
      Bool.false_eq_true, if_false]
    rw [ih]
    simp

theorem sum_map_one {α : Type} (l : List α) :
    (l.map fun _ => (1 : Nat)).sum = l.length := by
  induction l with
  | nil => rfl
  | cons x xs ih => simp [ih, Nat.add_comm]

/-!  The claims. -/

/-- C1: Mutation completeness — for every finite input sequence `S` and
mutation function `f`, driving the parallel path under any combination of
splits, push-folds and sequential conversions chosen by the engine, and
collecting the output, yields exactly `S` with `f` applied to each element
in the original order. -/
theorem mutation_completeness {T : Type} (S : List T) (f : T → T)
    (mn mx : Nat) (plan : EnginePlan) :
    UpdateProducer.runPlan ⟨⟨S, mn, mx⟩, f⟩ plan = S.map f := by
  induction plan generalizing S with
  | seqPull =>
    simpa [UpdateProducer.runPlan, UpdateProducer.into_iter] using
      UpdateSeq.toList_eq_map S f
  | pushFold =>
    show (UpdateProducer.fold_with _ (collectFolder T)).state = S.map f
    simp [UpdateProducer.fold_with, collectFolder, collect_driveAll]
  | split k pl pr ihl ihr =>
    have hstep : UpdateProducer.runPlan ⟨⟨S, mn, mx⟩, f⟩ (.split k pl pr)
        = UpdateProducer.runPlan ⟨⟨S.take k, mn, mx⟩, f⟩ pl
          ++ UpdateProducer.runPlan ⟨⟨S.drop k, mn, mx⟩, f⟩ pr := rfl
    rw [hstep, ihl, ihr]
    conv_rhs => rw [← List.take_append_drop k S]
    rw [List.map_append]

/-- C2: Split transparency — splitting the wrapped producer (or consumer) at
`k` yields two wrapped halves that both reference the same mutation function;
concatenating the two halves' mutated outputs in order equals mutating the
whole sequence, and each half's output is the corresponding half of the
whole mutated sequence split at `k`. -/
theorem split_transparency {T σ R : Type} (S : List T) (f : T → T)
    (mn mx k : Nat) (c : InnerConsumer T σ R) :
    (UpdateProducer.split_at ⟨⟨S, mn, mx⟩, f⟩ k).1.update_op = f
    ∧ (UpdateProducer.split_at ⟨⟨S, mn, mx⟩, f⟩ k).2.update_op = f
    ∧ (UpdateProducer.split_at ⟨⟨S, mn, mx⟩, f⟩ k).1.into_iter.toList
        ++ (UpdateProducer.split_at ⟨⟨S, mn, mx⟩, f⟩ k).2.into_iter.toList
      = (UpdateProducer.into_iter ⟨⟨S, mn, mx⟩, f⟩).toList
    ∧ (UpdateProducer.split_at ⟨⟨S, mn, mx⟩, f⟩ k).1.into_iter.toList
      = ((S.map f).take k)
    ∧ (UpdateProducer.split_at ⟨⟨S, mn, mx⟩, f⟩ k).2.into_iter.toList
      = ((S.map f).drop k)
    ∧ ((UpdateConsumer.new c f).split_at k).1.update_op = f
    ∧ ((UpdateConsumer.new c f).split_at k).2.1.update_op = f
    ∧ ((UpdateConsumer.new c f).split_at k).1.base = (c.split_at k).1
    ∧ ((UpdateConsumer.new c f).split_at k).2.1.base = (c.split_at k).2.1
    ∧ ((UpdateConsumer.new c f).split_at k).2.2 = (c.split_at k).2.2 := by
  have h1 : (UpdateProducer.split_at ⟨⟨S, mn, mx⟩, f⟩ k).1.into_iter.toList
      = (S.take k).map f := UpdateSeq.toList_eq_map _ f
  have h2 : (UpdateProducer.split_at ⟨⟨S, mn, mx⟩, f⟩ k).2.into_iter.toList
      = (S.drop k).map f := UpdateSeq.toList_eq_map _ f
  have h3 : (UpdateProducer.into_iter ⟨⟨S, mn, mx⟩, f⟩).toList = S.map f :=
    UpdateSeq.toList_eq_map S f
  refine ⟨rfl, rfl, ?_, ?_, ?_, rfl, rfl, rfl, rfl, rfl⟩
  · rw [h1, h2, h3]
    conv_rhs => rw [← List.take_append_drop k S]
    rw [List.map_append]
  · rw [h1, List.map_take]
  · rw [h2, List.map_drop]

/-- C3: Exactly-once mutation — instrumenting each item with an invocation
counter that the mutation function increments, a complete traversal delivers
every item with its counter at exactly one, the total number of invocations
equals the length of the input, and no item reaches the inner folder
unmutated (counter zero). -/
theorem exactly_once_mutation {α : Type} (S : List α) (g : α → α) :
    (UpdateFolder.driveAll ⟨collectFolder (α × Nat), fun q => (g q.1, q.2 + 1)⟩
        (S.map (fun x => (x, 0)))).base.state = S.map (fun x => (g x, 1))
    ∧ ((UpdateFolder.driveAll ⟨collectFolder (α × Nat), fun q => (g q.1, q.2 + 1)⟩
        (S.map (fun x => (x, 0)))).base.state.map Prod.snd).sum = S.length
    ∧ ∀ q ∈ (UpdateFolder.driveAll ⟨collectFolder (α × Nat), fun q => (g q.1, q.2 + 1)⟩
        (S.map (fun x => (x, 0)))).base.state, q.2 = 1 := by
  have h1 : (UpdateFolder.driveAll ⟨collectFolder (α × Nat),
      fun q => (g q.1, q.2 + 1)⟩ (S.map (fun x => (x, 0)))).base.state
      = S.map (fun x => (g x, 1)) := by
    show (UpdateFolder.driveAll ⟨⟨[], fun a x => a ++ [x], fun _ => false, id⟩,
      fun q => (g q.1, q.2 + 1)⟩ (S.map (fun x => (x, 0)))).base.state = _
    rw [collect_driveAll]
    simp [List.map_map, Function.comp]
  refine ⟨h1, ?_, ?_⟩
  · rw [h1, List.map_map]
    have hsnd : (Prod.snd ∘ fun x : α => (g x, 1)) = fun _ : α => (1 : Nat) := rfl
    rw [hsnd]
    exact sum_map_one S
  · rw [h1]
    intro q hq
    simp only [List.mem_map] at hq
    obtain ⟨x, -, rfl⟩ := hq
    rfl

/-- C4: Short-circuit propagation — the wrapped consumer's and folder's
fullness queries return exactly the inner component's signal, and once the
folder reports fullness after the items `xs`, driving any further items `ys`
changes nothing: no item beyond that point is ever consumed or mutated. -/
theorem short_circuit_propagation {T σ R : Type} (u : UpdateFolder T σ R)
    (c : UpdateConsumer T σ R) (xs ys : List T)
    (h : (u.driveAll xs).full = true) :
    c.full = c.base.full ∧ u.full = u.base.full
    ∧ u.driveAll (xs ++ ys) = u.driveAll xs := by
  refine ⟨rfl, rfl, ?_⟩
  induction xs generalizing u with
  | nil =>
    replace h : u.full = true := h
    cases ys with
    | nil => rfl
    | cons y ys => simp [UpdateFolder.driveAll, h]
  | cons x xs ih =>
    by_cases hu : u.full = true
    · show (if u.full = true then u else UpdateFolder.driveAll (u.consume x) (xs ++ ys))
        = (if u.full = true then u else UpdateFolder.driveAll (u.consume x) xs)
      rw [if_pos hu, if_pos hu]
    · replace h : (if u.full = true then u
          else UpdateFolder.driveAll (u.consume x) xs).full = true := h
      rw [if_neg hu] at h
      show (if u.full = true then u else UpdateFolder.driveAll (u.consume x) (xs ++ ys))
        = (if u.full = true then u else UpdateFolder.driveAll (u.consume x) xs)
      rw [if_neg hu, if_neg hu]
      exact ih (u.consume x) h

/-- C4 witness: with a downstream collector that is full after one item, the
drive of `[5] ++ [7]` equals the drive of `[5]` alone. -/
theorem short_circuit_propagation_witness :
    UpdateFolder.driveAll ⟨cappedOne, fun x => x * 10⟩ ([5] ++ [7])
      = UpdateFolder.driveAll ⟨cappedOne, fun x => x * 10⟩ [5] :=
  (short_circuit_propagation ⟨cappedOne, fun x => x * 10⟩
    (UpdateConsumer.new
      ⟨[], fun s _ => (s, s, fun a _ => a), id, fun _ => fun a _ => a,
        fun s x => s ++ [x], fun _ => false, id⟩
      (fun x => x * 10))
    [5] [7] (by decide)).2.2

/-- C5: Fast-path equivalence — the sequential iterator's bulk fold equals
folding its pull-and-mutate output manually, its bulk collect equals its
pull-and-mutate output, and the producer's bulk `fold_with` equals driving
the inner folder with the items pulled one at a time from the producer's
sequential iterator. -/
theorem fast_path_equivalence {T σ R Acc : Type} (s : UpdateSeq T)
    (init : Acc) (g : Acc → T → Acc) (p : UpdateProducer T)
    (G : InnerFolder T σ R) :
    s.fold init g = s.toList.foldl g init
    ∧ s.collect = s.toList
    ∧ p.fold_with G = G.driveAll p.into_iter.toList := by
  obtain ⟨l, f⟩ := s
  obtain ⟨⟨items, mn, mx⟩, fp⟩ := p
  refine ⟨?_, ?_, ?_⟩
  · rw [UpdateSeq.toList_eq_map]
    simp [UpdateSeq.fold, List.foldl_map]
  · rw [UpdateSeq.toList_eq_map]
    rfl
  · show (UpdateFolder.driveAll ⟨G, fp⟩ items).base = _
    rw [UpdateFolder.driveAll_base]
    rw [UpdateSeq.toList_eq_map]
    rfl

/-- C6: Next semantics — `next` pulls one item from the inner iterator: if an
item is present it is returned mutated (with the rest of the iterator
unchanged), and if the inner iterator is exhausted the result is `none`. -/
theorem next_semantics {T : Type} (s : UpdateSeq T) :
    s.next = match s.base with
      | [] => none
      | v :: rest => some (s.update_op v, ⟨rest, s.update_op⟩) := by
  obtain ⟨l, f⟩ := s
  cases l <;> rfl

theorem UpdateSeq.next_back_concat {T : Type} (l : List T) (v : T)
    (f : T → T) :
    UpdateSeq.next_back ⟨l ++ [v], f⟩ = some (f v, ⟨l, f⟩) := by
  simp [UpdateSeq.next_back, List.getLast?_concat, List.dropLast_concat]

theorem UpdateSeq.toListBack_eq {T : Type} (l : List T) (f : T → T) :
    UpdateSeq.toListBack ⟨l, f⟩ = (l.map f).reverse := by
  induction l using List.reverseRecOn with
  | nil =>
    rw [UpdateSeq.toListBack]
    simp [UpdateSeq.next_back]
  | append_singleton l v ih =>
    rw [UpdateSeq.toListBack]
    split
    · rename_i heq
      rw [UpdateSeq.next_back_concat] at heq
      exact absurd heq (by simp)
    · rename_i v' s' heq
      rw [UpdateSeq.next_back_concat] at heq
      simp only [Option.some.injEq, Prod.mk.injEq] at heq
      obtain ⟨rfl, rfl⟩ := heq
      rw [ih]
      simp

theorem UpdateSeq.runMixed_invariant {T : Type} (ds : List Bool)
    (l : List T) (f : T → T) :
    (UpdateSeq.runMixed ⟨l, f⟩ ds).1
        ++ (UpdateSeq.runMixed ⟨l, f⟩ ds).2.2.base.map f
        ++ (UpdateSeq.runMixed ⟨l, f⟩ ds).2.1.reverse = l.map f
    ∧ (UpdateSeq.runMixed ⟨l, f⟩ ds).2.2.update_op = f := by
  induction ds generalizing l with
  | nil => simp [UpdateSeq.runMixed]
  | cons d ds ih =>
    cases d with
    | true =>
      cases l with
      | nil =>
        show ((UpdateSeq.runMixed ⟨[], f⟩ ds).1
            ++ (UpdateSeq.runMixed ⟨[], f⟩ ds).2.2.base.map f
            ++ (UpdateSeq.runMixed ⟨[], f⟩ ds).2.1.reverse = List.map f [])
          ∧ (UpdateSeq.runMixed ⟨[], f⟩ ds).2.2.update_op = f
        exact ih []
      | cons x xs =>
        have hstep : UpdateSeq.runMixed ⟨x :: xs, f⟩ (true :: ds)
            = (f x :: (UpdateSeq.runMixed ⟨xs, f⟩ ds).1,
               (UpdateSeq.runMixed ⟨xs, f⟩ ds).2.1,
               (UpdateSeq.runMixed ⟨xs, f⟩ ds).2.2) := rfl
        rw [hstep]
        obtain ⟨ih1, ih2⟩ := ih xs
        exact ⟨by simpa using ih1, ih2⟩
    | false =>
      rcases l.eq_nil_or_concat with rfl | ⟨l', v, rfl⟩
      · show ((UpdateSeq.runMixed ⟨[], f⟩ ds).1
            ++ (UpdateSeq.runMixed ⟨[], f⟩ ds).2.2.base.map f
            ++ (UpdateSeq.runMixed ⟨[], f⟩ ds).2.1.reverse = List.map f [])
          ∧ (UpdateSeq.runMixed ⟨[], f⟩ ds).2.2.update_op = f
        exact ih []
      · simp only [List.concat_eq_append]
        have hstep : UpdateSeq.runMixed ⟨l' ++ [v], f⟩ (false :: ds)
            = ((UpdateSeq.runMixed ⟨l', f⟩ ds).1,
               f v :: (UpdateSeq.runMixed ⟨l', f⟩ ds).2.1,
               (UpdateSeq.runMixed ⟨l', f⟩ ds).2.2) := by
          simp [UpdateSeq.runMixed, UpdateSeq.next_back_concat]
        rw [hstep]
        obtain ⟨ih1, ih2⟩ := ih l'
        refine ⟨?_, ih2⟩
        show (UpdateSeq.runMixed ⟨l', f⟩ ds).1
            ++ (UpdateSeq.runMixed ⟨l', f⟩ ds).2.2.base.map f
            ++ (f v :: (UpdateSeq.runMixed ⟨l', f⟩ ds).2.1).reverse
          = (l' ++ [v]).map f
        rw [List.reverse_cons, List.map_append, ← List.append_assoc, ← ih1]
        simp

/-- C7: Reverse consistency — exhaustively iterating backward yields exactly
the reverse of iterating forward (same mutated values), and any mix of
forward and backward pulls partitions the mutated sequence: the items
yielded forward, the remaining items (mutated), and the items yielded
backward (reversed) concatenate to the full forward traversal, so no element
is ever yielded twice. -/
theorem reverse_consistency {T : Type} (l : List T) (f : T → T)
    (ds : List Bool) :
    UpdateSeq.toListBack ⟨l, f⟩ = (UpdateSeq.toList ⟨l, f⟩).reverse
    ∧ (UpdateSeq.runMixed ⟨l, f⟩ ds).1
        ++ (UpdateSeq.runMixed ⟨l, f⟩ ds).2.2.base.map f
        ++ (UpdateSeq.runMixed ⟨l, f⟩ ds).2.1.reverse
      = UpdateSeq.toList ⟨l, f⟩ := by
  constructor
  · rw [UpdateSeq.toListBack_eq, UpdateSeq.toList_eq_map]
  · rw [UpdateSeq.toList_eq_map]
    exact (UpdateSeq.runMixed_invariant ds l f).1

/-- C8: Cardinality preservation — the adapter's optional length hint, its
indexed exact length, the sequential iterator's size hint, and the producer's
minimum and maximum preferred chunk sizes are each the inner component's
answer, forwarded without modification. -/
theorem cardinality_preservation {T : Type} (b : BaseStage T) (f : T → T)
    (s : UpdateSeq T) (p : UpdateProducer T) :
    (Update.mk b f).opt_len = b.opt_len
    ∧ (Update.mk b f).len = b.len
    ∧ s.size_hint = listSizeHint s.base
    ∧ p.min_len = p.base.min_len
    ∧ p.max_len = p.base.max_len :=
  ⟨rfl, rfl, rfl, rfl, rfl⟩

theorem driveAll_error_aux {α E : Type} (g : α → α) (f : α → Except E α)
    (x : α) (rest : List α) (e : E) (hx : f x = .error e) :
    ∀ (good : List α) (acc : List α), (∀ a ∈ good, f a = .ok (g a)) →
      UpdateFolderE.driveAll
          ⟨⟨acc, fun a y => a ++ [y], fun _ => false, id⟩, f⟩
          (good ++ x :: rest)
        = .error (e, ⟨⟨acc ++ good.map g, fun a y => a ++ [y],
            fun _ => false, id⟩, f⟩) := by
  intro good
  induction good with
  | nil =>
    intro acc _
    have hc : (UpdateFolderE.consume
        ⟨⟨acc, fun a y => a ++ [y], fun _ => false, id⟩, f⟩ x :
        Except E (UpdateFolderE α (List α) (List α) E)) = .error e := by
      simp [UpdateFolderE.consume, hx]
    simp only [List.nil_append, UpdateFolderE.driveAll, hc, List.map_nil,
      List.append_nil]
  | cons a as ih =>
    intro acc hgood
    have ha : f a = .ok (g a) := hgood a (List.mem_cons_self a as)
    have hc : (UpdateFolderE.consume
        ⟨⟨acc, fun a y => a ++ [y], fun _ => false, id⟩, f⟩ a :
        Except E (UpdateFolderE α (List α) (List α) E))
        = .ok ⟨⟨acc ++ [g a], fun a y => a ++ [y], fun _ => false, id⟩, f⟩ := by
      simp [UpdateFolderE.consume, ha, InnerFolder.consume]
    simp only [List.cons_append, UpdateFolderE.driveAll, hc, List.append_eq]
    rw [ih (acc ++ [g a]) (fun b hb => hgood b (List.mem_cons_of_mem a hb))]
    simp

/-- C9: Failure propagation without rollback — if the mutation function
fails on element `x` after succeeding on the prefix `good`, the drive
produces no aggregate result but the very failure value, unwrapped, together
with the folder state at the failure point: the inner folder still holds
every previously mutated and forwarded element, with no rollback. -/
theorem failure_propagation {α E : Type} (g : α → α) (f : α → Except E α)
    (good : List α) (x : α) (rest : List α) (e : E)
    (hgood : ∀ a ∈ good, f a = .ok (g a)) (hx : f x = .error e) :
    UpdateFolderE.driveAll ⟨collectFolder α, f⟩ (good ++ x :: rest)
      = .error (e, ⟨⟨good.map g, fun a y => a ++ [y], fun _ => false, id⟩,
          f⟩) := by
  have h := driveAll_error_aux g f x rest e hx good [] hgood
  simpa using h

/-- C9 witness: incrementing mutation that fails on the value `2`: driving
`[0, 1, 2, 3]` yields the error with the inner state holding exactly the
mutated prefix `[1, 2]`. -/
theorem failure_propagation_witness :
    UpdateFolderE.driveAll
        ⟨collectFolder Nat, fun x => if x = 2 then .error 99 else .ok (x + 1)⟩
        ([0, 1] ++ 2 :: [3])
      = .error (99, ⟨⟨[0, 1].map (fun x => x + 1), fun a y => a ++ [y],
          fun _ => false, id⟩,
          fun x => if x = 2 then .error 99 else .ok (x + 1)⟩) :=
  failure_propagation (fun x => x + 1)
    (fun x => if x = 2 then .error 99 else .ok (x + 1)) [0, 1] 2 [3] 99
    (by
      intro a ha
      simp only [List.mem_cons, List.not_mem_nil, or_false] at ha
      rcases ha with rfl | rfl <;> rfl)
    rfl

/-- C10: Unindexed split invariant — `split_off_left` on the wrapped
consumer wraps the inner consumer's own `split_off_left` with the very same
mutation function, and `to_reducer` returns the inner consumer's reducer
unchanged. -/
theorem unindexed_split_invariant {T σ R : Type} (u : UpdateConsumer T σ R) :
    u.split_off_left.base = u.base.split_off_left
    ∧ u.split_off_left.update_op = u.update_op
    ∧ u.to_reducer = u.base.to_reducer :=
  ⟨rfl, rfl, rfl⟩

end RayonUpdate
